import Mathlib

/-!
Verification development for the `libdns/nfsn` provider (Go).

The Go sources are shallowly embedded: Go strings become `List Char`,
Go `int`/`int64` become `Int` (with explicit truncation where Go converts
to a fixed-width type), `time.Duration` becomes `Int` nanoseconds, and
fallible functions return `Except`.  External collaborators (the HTTP
client, `netip.ParseAddr`) are parameters of the embedded functions.
-/

/-- Go strings are modelled as lists of characters. -/
abbrev Str := List Char

namespace Nfsn

/-! ## Small string helpers from the Go standard library -/

/-- The Unicode White_Space code points, as used by Go `unicode.IsSpace`
(and hence by `strings.Fields`). -/
def isWhite (c : Char) : Bool :=
  c.toNat = 0x9 ∨ c.toNat = 0xA ∨ c.toNat = 0xB ∨ c.toNat = 0xC ∨ c.toNat = 0xD ∨
  c.toNat = 0x20 ∨ c.toNat = 0x85 ∨ c.toNat = 0xA0 ∨ c.toNat = 0x1680 ∨
  (0x2000 ≤ c.toNat ∧ c.toNat ≤ 0x200A) ∨ c.toNat = 0x2028 ∨ c.toNat = 0x2029 ∨
  c.toNat = 0x202F ∨ c.toNat = 0x205F ∨ c.toNat = 0x3000

/-- Worker for `goSplitN`: scans the string, cutting at `sep` while more than
one piece of budget remains; `acc` holds the current piece reversed. -/
def splitNAux (sep : Char) (budget : Nat) (acc : Str) : Str → List Str
  | [] => [acc.reverse]
  | c :: cs =>
    if budget ≤ 1 then [acc.reverse ++ c :: cs]
    else if c = sep then acc.reverse :: splitNAux sep (budget - 1) [] cs
    else splitNAux sep budget (c :: acc) cs

/-- Go `strings.SplitN(s, sep, n)` for a single-character separator and
`n > 0` (the provider only uses `n = 3`); `n = 0` yields the empty list. -/
def goSplitN (sep : Char) (n : Nat) (s : Str) : List Str :=
  if n = 0 then [] else splitNAux sep n [] s

/-- Worker for `goFields`: `acc` holds the current field reversed. -/
def fieldsAux : Str → Str → List Str
  | acc, [] => if acc = [] then [] else [acc.reverse]
  | acc, c :: cs =>
    if isWhite c then
      if acc = [] then fieldsAux [] cs else acc.reverse :: fieldsAux [] cs
    else fieldsAux (c :: acc) cs

/-- Go `strings.Fields`: splits around runs of white space. -/
def goFields (s : Str) : List Str := fieldsAux [] s

/-- Go `strings.TrimPrefix(s, "_")`: drops one leading underscore if present. -/
def trimUnd : Str → Str
  | [] => []
  | c :: cs => if c = '_' then cs else c :: cs

/-! ## Decimal formatting and parsing (`fmt.Sprintf %d`, `strconv.ParseUint`) -/

/-- The character for a decimal digit value. -/
def decDigitChar (d : Nat) : Char := Char.ofNat (48 + d)

/-- The value of a decimal digit character, if it is one. -/
def decDigitVal (c : Char) : Option Nat :=
  if 48 ≤ c.toNat ∧ c.toNat ≤ 57 then some (c.toNat - 48) else none

/-- Accumulating decimal parser over a digit string (most significant first). -/
def parseDigitsAux : Str → Nat → Option Nat
  | [], acc => some acc
  | c :: cs, acc =>
    match decDigitVal c with
    | none => none
    | some d => parseDigitsAux cs (acc * 10 + d)

/-- Fueled decimal formatter (digits are emitted into `acc`, most
significant first).  `fuel` only bounds the recursion. -/
def natToDecAux (fuel n : Nat) (acc : Str) : Str :=
  match fuel with
  | 0 => acc
  | fuel + 1 =>
    if n < 10 then decDigitChar n :: acc
    else natToDecAux fuel (n / 10) (decDigitChar (n % 10) :: acc)

/-- Go `fmt.Sprintf %d` for a non-negative integer: canonical decimal. -/
def natToDec (n : Nat) : Str := natToDecAux (n + 1) n []

/-- Fuel-free reference version of `natToDec`, convenient for induction. -/
def natToDecCore (n : Nat) : Str :=
  if _h : n < 10 then [decDigitChar n]
  else natToDecCore (n / 10) ++ [decDigitChar (n % 10)]
  decreasing_by exact Nat.div_lt_self (by omega) (by omega)

/-- Go `fmt.Sprintf %d` for an `int64`. -/
def intToDec (i : Int) : Str :=
  if i < 0 then '-' :: natToDec (-i).toNat else natToDec i.toNat

/-- Go `strconv.ParseUint(s, 10, 16)`: non-empty all-digit strings whose
value fits in 16 bits; leading zeros are accepted, signs are not. -/
def parseUint16 (s : Str) : Except Str Nat :=
  if s = [] then Except.error ("invalid syntax".toList)
  else
    match parseDigitsAux s 0 with
    | none => Except.error ("invalid syntax".toList)
    | some v =>
      if v < 65536 then Except.ok v else Except.error ("value out of range".toList)

/-! ## The data model -/

/-- One second, as a Go `time.Duration` (nanoseconds). -/
def oneSecond : Int := 1000000000

/-- `minimumTTL = 180 * time.Second`: NFSN enforces a minimum TTL of 3 minutes. -/
def minimumTTL : Int := 180 * oneSecond

/-- The view of a `netip.Addr` that the codec uses: its family test
(`Is4`) and its textual form (`String`).  Address parsing itself is an
external collaborator and stays abstract. -/
structure Addr where
  is4 : Bool
  str : Str
deriving DecidableEq, Repr

/-- The flat wire record of the provider (`nfsnRecord` in the Go source). -/
structure NfsnRecord where
  name : Str
  typ : Str
  data : Str
  ttl : Int
  scope : Str
  aux : Int
deriving DecidableEq, Repr

/-- The generic `libdns` record model: one constructor per typed variant
used by the provider, plus the catch-all `rr`.  TTLs are `time.Duration`
nanoseconds; `uint16` fields are `Nat` (kept below `2 ^ 16` by the Go types). -/
inductive GRecord where
  | address (name : Str) (ip : Addr) (ttl : Int)
  | cname (name : Str) (target : Str) (ttl : Int)
  | ns (name : Str) (target : Str) (ttl : Int)
  | mx (name : Str) (target : Str) (preference : Nat) (ttl : Int)
  | txt (name : Str) (text : Str) (ttl : Int)
  | srv (service transport name : Str) (priority weight port : Nat)
      (target : Str) (ttl : Int)
  | rr (typ name data : Str) (ttl : Int)
deriving DecidableEq, Repr

/-- The `url.Values` built by the encoder: the `type`, `name`, `data` and
`ttl` parameters, and the optional `aux` parameter (set for MX and SRV). -/
structure RecParams where
  typ : Str
  name : Str
  data : Str
  ttl : Str
  aux : Option Str
deriving DecidableEq, Repr

/-- `nameForLibdns`: the wire empty name denotes the zone apex `"@"`. -/
def nameForLibdns (nfsName : Str) : Str :=
  if nfsName = [] then "@".toList else nfsName

/-- `nameForNfsn`: inverse direction of the apex convention. -/
def nameForNfsn (libdnsName : Str) : Str :=
  if libdnsName = "@".toList then [] else libdnsName

/-- `ttlForNfsn`: floors the duration at `minimumTTL`, then renders whole
seconds in decimal.  (The Go source computes the seconds through
`float64`; that conversion is exact on every whole-second duration, and
the floored branch always yields exactly 180.) -/
def ttlForNfsn (libdnsTtl : Int) : Str :=
  natToDec ((if libdnsTtl < minimumTTL then minimumTTL else libdnsTtl).toNat / 1000000000)

/-- Go `uint16(x)` for `x : int`: truncation to the low 16 bits. -/
def toUint16 (x : Int) : Nat := (Int.emod x 65536).toNat

/-! ## The record codec -/

/-- `nfsnRecord.record()`: decodes one wire record into a generic record,
or fails.  `parseAddr` abstracts `netip.ParseAddr`. -/
def NfsnRecord.record (parseAddr : Str → Except Str Addr) (n : NfsnRecord) :
    Except Str GRecord :=
  if n.typ = "A".toList ∨ n.typ = "AAAA".toList then
    match parseAddr n.data with
    | Except.error e => Except.error e
    | Except.ok addr =>
      Except.ok (GRecord.address (nameForLibdns n.name) addr (oneSecond * n.ttl))
  else if n.typ = "CNAME".toList then
    Except.ok (GRecord.cname (nameForLibdns n.name) n.data (oneSecond * n.ttl))
  else if n.typ = "NS".toList then
    Except.ok (GRecord.ns (nameForLibdns n.name) n.data (oneSecond * n.ttl))
  else if n.typ = "PTR".toList then
    Except.ok (GRecord.rr ("PTR".toList) (nameForLibdns n.name) n.data (oneSecond * n.ttl))
  else if n.typ = "MX".toList then
    Except.ok (GRecord.mx (nameForLibdns n.name) n.data (toUint16 n.aux) (oneSecond * n.ttl))
  else if n.typ = "TXT".toList then
    Except.ok (GRecord.txt (nameForLibdns n.name) n.data (oneSecond * n.ttl))
  else if n.typ = "SRV".toList then
    let nameFields := goSplitN '.' 3 n.name
    if nameFields.length < 2 then
      Except.error ("Name value has too few fields, expected at least 2".toList)
    else
      let name :=
        if nameFields.length = 3 ∧ nameFields.getD 2 [] ≠ [] then nameFields.getD 2 []
        else "@".toList
      let dataFields := goFields n.data
      if dataFields.length ≠ 3 then
        Except.error ("Data value has wrong number of fields, expected 3".toList)
      else
        match parseUint16 (dataFields.getD 0 []) with
        | Except.error e => Except.error e
        | Except.ok weight =>
          match parseUint16 (dataFields.getD 1 []) with
          | Except.error e => Except.error e
          | Except.ok port =>
            Except.ok (GRecord.srv (trimUnd (nameFields.getD 0 []))
              (trimUnd (nameFields.getD 1 [])) name (toUint16 n.aux) weight port
              (dataFields.getD 2 []) (oneSecond * n.ttl))
  else Except.error ("Unsupported record type ".toList ++ n.typ)

/-- `innerToNfsnRecordParameters`: encodes a generic record into the wire
request parameters, or fails.  (The `toNfsnRecordParameters` wrapper in
the Go source first runs `libdns.RR.Parse` on raw `RR` values; records
here are already in typed form, which is what that wrapper produces.) -/
def toNfsnRecordParameters : GRecord → Except Str RecParams
  | GRecord.address nm ip ttl =>
    Except.ok ⟨if ip.is4 then "A".toList else "AAAA".toList,
      nameForNfsn nm, ip.str, ttlForNfsn ttl, none⟩
  | GRecord.cname nm target ttl =>
    Except.ok ⟨"CNAME".toList, nameForNfsn nm, target, ttlForNfsn ttl, none⟩
  | GRecord.ns nm target ttl =>
    Except.ok ⟨"NS".toList, nameForNfsn nm, target, ttlForNfsn ttl, none⟩
  | GRecord.mx nm target pref ttl =>
    Except.ok ⟨"MX".toList, nameForNfsn nm, target, ttlForNfsn ttl, some (natToDec pref)⟩
  | GRecord.srv s t nm pr w p target ttl =>
    let name := nameForNfsn nm
    let suffix := if name ≠ [] then '.' :: name else []
    Except.ok ⟨"SRV".toList, '_' :: s ++ '.' :: '_' :: t ++ suffix,
      natToDec w ++ ' ' :: natToDec p ++ ' ' :: target, ttlForNfsn ttl,
      some (natToDec pr)⟩
  | GRecord.txt nm text ttl =>
    Except.ok ⟨"TXT".toList, nameForNfsn nm, text, ttlForNfsn ttl, none⟩
  | GRecord.rr ty nm dt ttl =>
    if ty = "PTR".toList then
      Except.ok ⟨"PTR".toList, nameForNfsn nm, dt, ttlForNfsn ttl, none⟩
    else Except.error ("Unsupported record type ".toList ++ ty)

/-- Reassembles a wire record from encoded parameters (the form the
provider API receives): `ttl` and `aux` travel as decimal strings. -/
def wireOfParams (p : RecParams) : NfsnRecord :=
  ⟨p.name, p.typ, p.data, ((parseDigitsAux p.ttl 0).getD 0 : Nat),
    [], ((parseDigitsAux (p.aux.getD []) 0).getD 0 : Nat)⟩

/-! ## Salt generation -/

/-- The salt alphabet constant, copied verbatim from the Go source. -/
def saltChars : Str :=
  "ABCDEFGHIJKLMNOPQRSTUVWXYZabcdefghijjklmnopqrstuvwxyz0123456789".toList

/-- The salt length constant. -/
def saltLen : Nat := 16

/-- `genSalt`: consumes the bytes delivered by `crypto/rand.Read` (passed
in as `randomBytes`, so the random source stays external).  The Go loop is
`for b := range bytes`, which ranges over the *indices* of the byte slice,
so the character picked at position `i` is `saltChars[i % len(saltChars)]`. -/
def genSalt (randomBytes : List Nat) : Except Str Str :=
  if randomBytes.length ≠ saltLen then
    Except.error ("Failed to read enough random bytes".toList)
  else
    Except.ok ((List.range randomBytes.length).map
      (fun b => saltChars.getD (b % saltChars.length) ' '))

/-! ## SHA-1 and the request signer -/

/-- Low 32-bit mask. -/
def mask32 : Nat := 4294967295

/-- 32-bit left rotation. -/
def rotl (k x : Nat) : Nat := (((x <<< k) ||| (x >>> (32 - k))) &&& mask32)

/-- Big-endian 32-bit words from a byte list (whole groups of four). -/
def bytesToWords : List Nat → List Nat
  | b0 :: b1 :: b2 :: b3 :: rest =>
    ((b0 <<< 24) ||| (b1 <<< 16) ||| (b2 <<< 8) ||| b3) :: bytesToWords rest
  | _ => []

/-- Big-endian 8-byte rendering of a 64-bit value. -/
def beBytes8 (n : Nat) : List Nat :=
  [(n >>> 56) &&& 255, (n >>> 48) &&& 255, (n >>> 40) &&& 255, (n >>> 32) &&& 255,
   (n >>> 24) &&& 255, (n >>> 16) &&& 255, (n >>> 8) &&& 255, n &&& 255]

/-- SHA-1 message padding: a `0x80` byte, zeros to 56 mod 64, and the
bit length, big-endian. -/
def sha1Pad (m : List Nat) : List Nat :=
  m ++ 128 :: List.replicate ((120 - ((m.length + 1) % 64)) % 64) 0 ++
    beBytes8 (m.length * 8)

/-- Message-schedule expansion from 16 to 80 words; `acc` holds the words
produced so far, most recent first. -/
def sha1Expand (fuel : Nat) (acc : List Nat) : List Nat :=
  match fuel with
  | 0 => acc.reverse
  | fuel + 1 =>
    sha1Expand fuel
      (rotl 1 ((acc.getD 2 0) ^^^ (acc.getD 7 0) ^^^ (acc.getD 13 0) ^^^ (acc.getD 15 0)) :: acc)

/-- The SHA-1 round function for round `i`. -/
def sha1F (i b c d : Nat) : Nat :=
  if i < 20 then (b &&& c) ||| ((mask32 ^^^ b) &&& d)
  else if i < 40 then b ^^^ c ^^^ d
  else if i < 60 then (b &&& c) ||| (b &&& d) ||| (c &&& d)
  else b ^^^ c ^^^ d

/-- The SHA-1 round constant for round `i`. -/
def sha1K (i : Nat) : Nat :=
  if i < 20 then 1518500249
  else if i < 40 then 1859775393
  else if i < 60 then 2400959708
  else 3395469782

/-- The 80 SHA-1 rounds over the expanded schedule. -/
def sha1Rounds : List Nat → Nat → Nat × Nat × Nat × Nat × Nat → Nat × Nat × Nat × Nat × Nat
  | [], _, st => st
  | w :: ws, i, (a, b, c, d, e) =>
    sha1Rounds ws (i + 1)
      (((rotl 5 a) + sha1F i b c d + e + sha1K i + w) &&& mask32, a, rotl 30 b, c, d)

/-- Compression of one 64-byte block into the running state. -/
def sha1Block (st : Nat × Nat × Nat × Nat × Nat) (block : List Nat) :
    Nat × Nat × Nat × Nat × Nat :=
  match st with
  | (h0, h1, h2, h3, h4) =>
    match sha1Rounds (sha1Expand 64 (bytesToWords block).reverse) 0 (h0, h1, h2, h3, h4) with
    | (a, b, c, d, e) =>
      ((h0 + a) &&& mask32, (h1 + b) &&& mask32, (h2 + c) &&& mask32,
       (h3 + d) &&& mask32, (h4 + e) &&& mask32)

/-- Iterates `sha1Block` over consecutive 64-byte blocks; `fuel` only
bounds the recursion (any value at least the byte count works). -/
def sha1Blocks (fuel : Nat) (st : Nat × Nat × Nat × Nat × Nat) (bs : List Nat) :
    Nat × Nat × Nat × Nat × Nat :=
  match fuel with
  | 0 => st
  | fuel + 1 =>
    match bs with
    | [] => st
    | _ => sha1Blocks fuel (sha1Block st (bs.take 64)) (bs.drop 64)

/-- SHA-1 of a byte list, as the five 32-bit state words. -/
def sha1 (m : List Nat) : List Nat :=
  let p := sha1Pad m
  match sha1Blocks p.length (1732584193, 4023233417, 2562383102, 271733878, 3285377520) p with
  | (a, b, c, d, e) => [a, b, c, d, e]

/-- Lowercase hex character for a nibble. -/
def hexDigitChar (d : Nat) : Char :=
  if d < 10 then decDigitChar d else Char.ofNat (87 + d)

/-- Eight lowercase hex characters of a 32-bit word (Go `%x` renders the
20-byte digest as 40 such characters, four per word). -/
def word32Hex (w : Nat) : Str :=
  [hexDigitChar ((w >>> 28) &&& 15), hexDigitChar ((w >>> 24) &&& 15),
   hexDigitChar ((w >>> 20) &&& 15), hexDigitChar ((w >>> 16) &&& 15),
   hexDigitChar ((w >>> 12) &&& 15), hexDigitChar ((w >>> 8) &&& 15),
   hexDigitChar ((w >>> 4) &&& 15), hexDigitChar (w &&& 15)]

/-- The 40-character lowercase hex digest. -/
def sha1Hex (ws : List Nat) : Str := (ws.map word32Hex).flatten

/-- UTF-8 bytes of one character (Go `[]byte(string)`). -/
def utf8Bytes (c : Char) : List Nat :=
  let n := c.toNat
  if n < 128 then [n]
  else if n < 2048 then [192 + n / 64, 128 + n % 64]
  else if n < 65536 then [224 + n / 4096, 128 + (n / 64) % 64, 128 + n % 64]
  else [240 + n / 262144, 128 + (n / 4096) % 64, 128 + (n / 64) % 64, 128 + n % 64]

/-- UTF-8 bytes of a string. -/
def strBytes (s : Str) : List Nat := (s.map utf8Bytes).flatten

/-- The pure core of `Provider.innerGetAuthValue`: computes the
`X-NFSN-Authentication` token from the credentials, the request path, the
request body bytes, the unix timestamp and the salt. -/
def innerGetAuthValue (login apiKey path : Str) (body : List Nat)
    (timestamp : Int) (salt : Str) : Str :=
  let bodyHash := sha1 body
  let hText := login ++ ';' :: intToDec timestamp ++ ';' :: salt ++ ';' ::
    apiKey ++ ';' :: path ++ ';' :: sha1Hex bodyHash
  let hHash := sha1 (strBytes hText)
  login ++ ';' :: intToDec timestamp ++ ';' :: salt ++ ';' :: sha1Hex hHash

/-! ## The batch mutator and the listing decode loop -/

/-- `Provider.processRecords`: encodes and sends each record in order,
stopping at the first failure.  `send` abstracts one `POST` via
`makeRequest` (the zone and verb are fixed inside it).  Returns the
successfully processed records, the trace of requests actually issued,
and the error that stopped the loop, if any. -/
def processRecords (send : RecParams → Except Str Unit) :
    List GRecord → List GRecord × List RecParams × Option Str
  | [] => ([], [], none)
  | r :: rs =>
    match toNfsnRecordParameters r with
    | Except.error e => ([], [], some e)
    | Except.ok p =>
      match send p with
      | Except.error e => ([], [p], some e)
      | Except.ok _ =>
        match processRecords send rs with
        | (succ, sent, err) => (r :: succ, p :: sent, err)

/-- Whether one record would encode and send successfully. -/
def recOk (send : RecParams → Except Str Unit) (r : GRecord) : Bool :=
  match toNfsnRecordParameters r with
  | Except.error _ => false
  | Except.ok p =>
    match send p with
    | Except.error _ => false
    | Except.ok _ => true

/-- The error of the first record that fails to encode or send. -/
def firstErr (send : RecParams → Except Str Unit) : List GRecord → Option Str
  | [] => none
  | r :: rs =>
    match toNfsnRecordParameters r with
    | Except.error e => some e
    | Except.ok p =>
      match send p with
      | Except.error e => some e
      | Except.ok _ => firstErr send rs

/-- The decode loop of `Provider.GetRecords`: decodes every wire record,
returning no records at all on the first decode failure. -/
def decodeAllLoop (parseAddr : Str → Except Str Addr) :
    List NfsnRecord → Except Str (List GRecord)
  | [] => Except.ok []
  | n :: ns =>
    match NfsnRecord.record parseAddr n with
    | Except.error e => Except.error e
    | Except.ok r =>
      match decodeAllLoop parseAddr ns with
      | Except.error e => Except.error e
      | Except.ok rs => Except.ok (r :: rs)

/-- `Provider.GetRecords` with the transport and JSON stages abstracted
into `fetch`: a failed fetch propagates, a successful one is decoded. -/
def GetRecords (parseAddr : Str → Except Str Addr)
    (fetch : Except Str (List NfsnRecord)) : Except Str (List GRecord) :=
  match fetch with
  | Except.error e => Except.error e
  | Except.ok ns => decodeAllLoop parseAddr ns

/-- The error of the first wire record that fails to decode. -/
def firstDecodeErr (parseAddr : Str → Except Str Addr) :
    List NfsnRecord → Option Str
  | [] => none
  | n :: ns =>
    match NfsnRecord.record parseAddr n with
    | Except.error e => some e
    | Except.ok _ => firstDecodeErr parseAddr ns

/-! ## Lemmas about the string helpers -/

theorem splitNAux_one (sep : Char) (acc s : Str) :
    splitNAux sep 1 acc s = [acc.reverse ++ s] := by
  cases s with
  | nil => simp [splitNAux]
  | cons c cs => simp [splitNAux]

theorem splitNAux_no_sep (sep : Char) :
    ∀ (s : Str) (b : Nat) (acc : Str), sep ∉ s → splitNAux sep b acc s = [acc.reverse ++ s] := by
  intro s
  induction s with
  | nil => intro b acc _; simp [splitNAux]
  | cons c cs ih =>
    intro b acc hs
    have hc : ¬ c = sep := fun h => (by simp [h] at hs)
    rw [splitNAux]
    by_cases hb : b ≤ 1
    · simp [hb]
    · simp only [hb, if_false, hc]
      rw [ih b (c :: acc) (fun h => hs (List.mem_cons_of_mem _ h))]
      simp

theorem splitNAux_sep (sep : Char) (b : Nat) (r : Str) (hb : 2 ≤ b) :
    ∀ (f : Str) (acc : Str), sep ∉ f →
      splitNAux sep b acc (f ++ (sep :: r)) =
        (acc.reverse ++ f) :: splitNAux sep (b - 1) [] r := by
  intro f
  induction f with
  | nil =>
    intro acc _
    rw [List.nil_append, splitNAux]
    simp [show ¬ b ≤ 1 by omega]
  | cons c cs ih =>
    intro acc hf
    have hc : ¬ c = sep := fun h => (by simp [h] at hf)
    rw [List.cons_append, splitNAux]
    simp only [show ¬ b ≤ 1 by omega, if_false, hc]
    rw [ih (c :: acc) (fun h => hf (List.mem_cons_of_mem _ h))]
    simp

theorem goSplitN_two (f1 f2 : Str) (h1 : '.' ∉ f1) (h2 : '.' ∉ f2) :
    goSplitN '.' 3 (f1 ++ ('.' :: f2)) = [f1, f2] := by
  rw [goSplitN, if_neg (by omega), splitNAux_sep '.' 3 f2 (by omega) f1 [] h1,
    splitNAux_no_sep '.' f2 2 [] h2]
  simp

theorem goSplitN_three (f1 f2 f3 : Str) (h1 : '.' ∉ f1) (h2 : '.' ∉ f2) :
    goSplitN '.' 3 (f1 ++ ('.' :: (f2 ++ ('.' :: f3)))) = [f1, f2, f3] := by
  rw [goSplitN, if_neg (by omega),
    splitNAux_sep '.' 3 (f2 ++ ('.' :: f3)) (by omega) f1 [] h1,
    splitNAux_sep '.' 2 f3 (by omega) f2 [] h2, splitNAux_one]
  simp

theorem fieldsAux_word (w : Str) (hw : ∀ c ∈ w, isWhite c = false) :
    ∀ (rest acc : Str), fieldsAux acc (w ++ rest) = fieldsAux (w.reverse ++ acc) rest := by
  induction w with
  | nil => intro rest acc; simp
  | cons c cs ih =>
    intro rest acc
    rw [List.cons_append, fieldsAux]
    simp only [hw c (List.mem_cons_self ..), Bool.false_eq_true, if_false]
    rw [ih (fun d hd => hw d (List.mem_cons_of_mem _ hd)) rest (c :: acc)]
    simp

theorem fieldsAux_space (cs acc : Str) :
    fieldsAux acc (' ' :: cs) =
      if acc = [] then fieldsAux [] cs else acc.reverse :: fieldsAux [] cs := by
  rw [fieldsAux]
  simp [show isWhite ' ' = true from by decide]

theorem goFields_three (a b c : Str) (ha : a ≠ []) (hb : b ≠ []) (hc : c ≠ [])
    (hwa : ∀ x ∈ a, isWhite x = false) (hwb : ∀ x ∈ b, isWhite x = false)
    (hwc : ∀ x ∈ c, isWhite x = false) :
    goFields (a ++ (' ' :: (b ++ (' ' :: c)))) = [a, b, c] := by
  rw [goFields, fieldsAux_word a hwa, fieldsAux_space]
  have hra : ¬ a.reverse ++ ([] : Str) = [] := by simp [ha]
  rw [if_neg hra, fieldsAux_word b hwb, fieldsAux_space]
  have hrb : ¬ b.reverse ++ ([] : Str) = [] := by simp [hb]
  rw [if_neg hrb]
  have hcw := fieldsAux_word c hwc [] []
  rw [List.append_nil] at hcw
  rw [hcw, fieldsAux]
  simp [hc]

theorem trimUnd_und (s : Str) : trimUnd ('_' :: s) = s := by simp [trimUnd]

theorem trimUnd_no_und (s : Str) (h : ∀ t : Str, s ≠ '_' :: t) : trimUnd s = s := by
  cases s with
  | nil => rfl
  | cons c cs =>
    rw [trimUnd]
    have : ¬ c = '_' := fun hc => h cs (by rw [hc])
    simp [this]

/-! ## Lemmas about decimal formatting and parsing -/

theorem decDigitChar_toNat (d : Nat) (h : d < 10) : (decDigitChar d).toNat = 48 + d := by
  interval_cases d <;> decide

theorem decDigitVal_decDigitChar (d : Nat) (h : d < 10) :
    decDigitVal (decDigitChar d) = some d := by
  interval_cases d <;> decide

theorem natToDecAux_eq_core (fuel : Nat) :
    ∀ (n : Nat) (acc : Str), n < fuel → natToDecAux fuel n acc = natToDecCore n ++ acc := by
  induction fuel with
  | zero => intro n acc h; omega
  | succ f ih =>
    intro n acc h
    rw [natToDecAux]
    by_cases hn : n < 10
    · rw [natToDecCore]
      simp [hn]
    · have hd : n / 10 < f := by
        have h1 : n / 10 < n := Nat.div_lt_self (by omega) (by omega)
        omega
      simp only [hn, if_false]
      rw [ih (n / 10) _ hd]
      conv_rhs => rw [natToDecCore]
      simp [hn]

theorem natToDec_eq_core (n : Nat) : natToDec n = natToDecCore n := by
  rw [natToDec, natToDecAux_eq_core (n + 1) n [] (by omega), List.append_nil]

theorem parseDigitsAux_append (l1 l2 : Str) :
    ∀ a : Nat, parseDigitsAux (l1 ++ l2) a =
      match parseDigitsAux l1 a with
      | none => none
      | some v => parseDigitsAux l2 v := by
  induction l1 with
  | nil => intro a; simp [parseDigitsAux]
  | cons c cs ih =>
    intro a
    simp only [List.cons_append, parseDigitsAux]
    cases h : decDigitVal c <;> simp [h, ih]

theorem natToDecCore_mem (n : Nat) :
    ∀ c ∈ natToDecCore n, ∃ d : Nat, d < 10 ∧ c = decDigitChar d := by
  induction n using Nat.strong_induction_on with
  | _ n ih =>
    intro c hc
    rw [natToDecCore] at hc
    by_cases hn : n < 10
    · simp only [hn, dif_pos] at hc
      exact ⟨n, hn, by simpa using hc⟩
    · simp only [hn, dif_neg, not_false_iff, List.mem_append, List.mem_singleton] at hc
      rcases hc with hc | hc
      · exact ih (n / 10) (Nat.div_lt_self (by omega) (by omega)) c hc
      · exact ⟨n % 10, Nat.mod_lt _ (by omega), hc⟩

theorem natToDecCore_ne_nil (n : Nat) : natToDecCore n ≠ [] := by
  rw [natToDecCore]
  by_cases hn : n < 10 <;> simp [hn]

theorem parseDigitsAux_core (n : Nat) :
    ∀ a : Nat, parseDigitsAux (natToDecCore n) a =
      some (a * 10 ^ (natToDecCore n).length + n) := by
  induction n using Nat.strong_induction_on with
  | _ n ih =>
    intro a
    rw [natToDecCore]
    by_cases hn : n < 10
    · simp only [hn, dif_pos]
      simp [parseDigitsAux, decDigitVal_decDigitChar n hn]
    · simp only [hn, dif_neg, not_false_iff]
      rw [parseDigitsAux_append]
      rw [ih (n / 10) (Nat.div_lt_self (by omega) (by omega)) a]
      simp only [parseDigitsAux, decDigitVal_decDigitChar (n % 10) (Nat.mod_lt _ (by omega)),
        List.length_append, List.length_singleton]
      congr 1
      have hp : a * 10 ^ ((natToDecCore (n / 10)).length + 1) =
          a * 10 ^ (natToDecCore (n / 10)).length * 10 := by ring
      rw [hp]
      generalize a * 10 ^ (natToDecCore (n / 10)).length = t
      omega

theorem parseDigitsAux_natToDec (n : Nat) : parseDigitsAux (natToDec n) 0 = some n := by
  rw [natToDec_eq_core, parseDigitsAux_core n 0]
  simp

theorem natToDec_ne_nil (n : Nat) : natToDec n ≠ [] := by
  rw [natToDec_eq_core]; exact natToDecCore_ne_nil n

theorem natToDec_mem (n : Nat) :
    ∀ c ∈ natToDec n, ∃ d : Nat, d < 10 ∧ c = decDigitChar d := by
  rw [natToDec_eq_core]; exact natToDecCore_mem n

theorem natToDec_not_white (n : Nat) : ∀ c ∈ natToDec n, isWhite c = false := by
  intro c hc
  obtain ⟨d, hd, rfl⟩ := natToDec_mem n c hc
  interval_cases d <;> decide

theorem natToDec_no_dot (n : Nat) : '.' ∉ natToDec n := by
  intro hc
  obtain ⟨d, hd, h⟩ := natToDec_mem n '.' hc
  interval_cases d <;> simp_all <;> exact absurd h (by decide)

theorem parseUint16_natToDec (n : Nat) (h : n < 65536) :
    parseUint16 (natToDec n) = Except.ok n := by
  rw [parseUint16, if_neg (natToDec_ne_nil n), parseDigitsAux_natToDec]
  simp [h]

/-- The TTL carried by a generic record. -/
def recordTTL : GRecord → Int
  | GRecord.address _ _ ttl => ttl
  | GRecord.cname _ _ ttl => ttl
  | GRecord.ns _ _ ttl => ttl
  | GRecord.mx _ _ _ ttl => ttl
  | GRecord.txt _ _ ttl => ttl
  | GRecord.srv _ _ _ _ _ _ _ ttl => ttl
  | GRecord.rr _ _ _ ttl => ttl

/-- Shared helper: whatever generic record a decode produces, its TTL is
exactly the wire ttl in seconds. -/
theorem decode_ttl_exact (pa : Str → Except Str Addr) (w : NfsnRecord) (g : GRecord)
    (h : NfsnRecord.record pa w = Except.ok g) : recordTTL g = oneSecond * w.ttl := by
  rw [NfsnRecord.record] at h
  split at h
  · split at h
    · exact Except.noConfusion h
    · cases h; rfl
  · split at h
    · cases h; rfl
    · split at h
      · cases h; rfl
      · split at h
        · cases h; rfl
        · split at h
          · cases h; rfl
          · split at h
            · cases h; rfl
            · split at h
              · simp only [] at h
                split at h
                · exact Except.noConfusion h
                · split at h
                  · exact Except.noConfusion h
                  · split at h
                    · exact Except.noConfusion h
                    · split at h
                      · exact Except.noConfusion h
                      · cases h; rfl
              · exact Except.noConfusion h

/-! ## Claim theorems -/

set_option maxRecDepth 200000 in
/-- C1: on the fixed inputs login `testuser`, API key `p3kxmRKf9dk3l6ls`,
request path `/site/example/getInfo`, empty body, timestamp `1012121212`
and salt `dkwo28Sile4jdXkw`, the request signer produces exactly the
canonical conformance token, via SHA-1 of the body and of the
semicolon-joined signing string, with lowercase 40-character hex digests. -/
theorem innerGetAuthValue_conformance_vector :
    innerGetAuthValue ("testuser".toList) ("p3kxmRKf9dk3l6ls".toList)
      ("/site/example/getInfo".toList) [] 1012121212 ("dkwo28Sile4jdXkw".toList) =
      "testuser;1012121212;dkwo28Sile4jdXkw;0fa8932e122d56e2f6d1550f9aab39c4aef8bfc4".toList := by
  decide

/-- C2: the batch mutator returns exactly the longest prefix of its input
whose records all encode and send successfully, together with the error of
the first failing record (none when every record succeeds, in which case
the full input is returned), and it issues at most one request beyond the
succeeded prefix — later records are never attempted.  The zone and verb
are fixed inside `send`. -/
theorem processRecords_prefix_commit (send : RecParams → Except Str Unit)
    (records : List GRecord) :
    (processRecords send records).1 = records.takeWhile (recOk send) ∧
    (processRecords send records).2.2 = firstErr send records ∧
    ((processRecords send records).2.2 = none ↔ records.all (recOk send) = true) ∧
    (processRecords send records).2.1.length ≤ (processRecords send records).1.length + 1 := by
  induction records with
  | nil => simp [processRecords, firstErr]
  | cons r rs ih =>
    cases he : toNfsnRecordParameters r with
    | error e =>
      simp [processRecords, firstErr, recOk, he]
    | ok p =>
      cases hs : send p with
      | error e =>
        simp [processRecords, firstErr, recOk, he, hs]
      | ok u =>
        have hok : recOk send r = true := by simp [recOk, he, hs]
        rcases hpr : processRecords send rs with ⟨succ, sent, err⟩
        rw [hpr] at ih
        dsimp only at ih
        obtain ⟨ih1, ih2, ih3, ih4⟩ := ih
        refine ⟨?_, ?_, ?_, ?_⟩
        · simp [processRecords, he, hs, hpr, hok, ih1]
        · simp [processRecords, he, hs, hpr, firstErr, ih2]
        · simp [processRecords, he, hs, hpr, firstErr, hok, ih3]
        · simp only [processRecords, he, hs, hpr]
          simp only [List.length_cons]
          omega

/-- Shared helper: a successful `genSalt` run always yields the same fixed
string (the Go loop `for b := range bytes` iterates over indices). -/
theorem genSalt_const (randomBytes : List Nat) (h : randomBytes.length = saltLen) :
    genSalt randomBytes = Except.ok ("ABCDEFGHIJKLMNOP".toList) := by
  rw [genSalt, if_neg (by simp [h]), h]
  rfl

/-- C4 (evidence of the code bug): the generated salt does not depend on
the random bytes at all — the Go loop `for b := range bytes` iterates over
indices, so any two successful calls return the same fixed salt, however
different their random inputs. -/
theorem genSalt_ignores_random_bytes (bytes1 bytes2 : List Nat)
    (h1 : bytes1.length = saltLen) (h2 : bytes2.length = saltLen) :
    genSalt bytes1 = genSalt bytes2 ∧
      genSalt bytes1 = Except.ok ("ABCDEFGHIJKLMNOP".toList) := by
  rw [genSalt_const bytes1 h1, genSalt_const bytes2 h2]
  exact ⟨rfl, rfl⟩

/-- Witness for `genSalt_ignores_random_bytes`: two maximally different
random inputs yield the same salt. -/
theorem genSalt_ignores_random_bytes_witness :
    genSalt (List.replicate 16 0) = genSalt (List.replicate 16 255) ∧
      genSalt (List.replicate 16 0) = Except.ok ("ABCDEFGHIJKLMNOP".toList) :=
  genSalt_ignores_random_bytes (List.replicate 16 0) (List.replicate 16 255)
    (by decide) (by decide)

/-- C5 (evidence of the code bug): every successful salt has length 16 and
draws its characters from the salt alphabet, whose 63 characters contain
exactly 62 distinct ones (`j` appears twice) — but the characters are not
drawn uniformly: the output is the same fixed string on every call. -/
theorem genSalt_shape (randomBytes : List Nat) (s : Str)
    (h : genSalt randomBytes = Except.ok s) :
    s.length = 16 ∧ (∀ c ∈ s, c ∈ saltChars) ∧
      saltChars.length = 63 ∧ saltChars.dedup.length = 62 ∧
      s = "ABCDEFGHIJKLMNOP".toList := by
  have hlen : randomBytes.length = saltLen := by
    by_contra hne
    rw [genSalt, if_pos hne] at h
    exact Except.noConfusion h
  rw [genSalt_const randomBytes hlen] at h
  cases h
  refine ⟨by decide, ?_, by decide, by decide, rfl⟩
  decide

/-- Witness for `genSalt_shape` at a concrete random input. -/
theorem genSalt_shape_witness :
    "ABCDEFGHIJKLMNOP".toList.length = 16 ∧
      (∀ c ∈ "ABCDEFGHIJKLMNOP".toList, c ∈ saltChars) ∧
      saltChars.length = 63 ∧ saltChars.dedup.length = 62 ∧
      "ABCDEFGHIJKLMNOP".toList = "ABCDEFGHIJKLMNOP".toList :=
  genSalt_shape (List.replicate 16 42) ("ABCDEFGHIJKLMNOP".toList) (by rfl)

/-- C6: TTL flooring is one-way and encode-only — the encoder sends 180
for any duration below 180 seconds and the unchanged number of whole
seconds for any whole-second duration at or above it, while the decoder
converts the wire ttl to a duration exactly as received, for every wire
record and every decode success, with no re-flooring. -/
theorem ttl_floor_encode_only :
    (∀ d : Int, d < minimumTTL → ttlForNfsn d = "180".toList) ∧
    (∀ k : Nat, 180 ≤ k → ttlForNfsn ((k : Int) * oneSecond) = natToDec k) ∧
    (∀ (pa : Str → Except Str Addr) (w : NfsnRecord) (g : GRecord),
      NfsnRecord.record pa w = Except.ok g → recordTTL g = oneSecond * w.ttl) := by
  refine ⟨?_, ?_, ?_⟩
  · intro d h
    rw [ttlForNfsn, if_pos h]
    decide
  · intro k h
    have hn : ¬ ((k : Int) * oneSecond < minimumTTL) := by
      rw [oneSecond, minimumTTL, oneSecond]
      omega
    rw [ttlForNfsn, if_neg hn, oneSecond]
    have h1 : ((k : Int) * 1000000000).toNat = k * 1000000000 := by
      rw [show ((k : Int) * 1000000000) = ((k * 1000000000 : Nat) : Int) by push_cast; ring]
      exact Int.toNat_natCast _
    rw [h1, Nat.mul_div_cancel _ (by omega)]
  · exact decode_ttl_exact

/-- Witness for `ttl_floor_encode_only`: a 60-second TTL is floored to
`"180"` on encode, a 300-second TTL passes through, and a wire ttl of 60
decodes to exactly 60 seconds. -/
theorem ttl_floor_encode_only_witness :
    ttlForNfsn (60 * oneSecond) = "180".toList ∧
      ttlForNfsn ((300 : Nat) * oneSecond) = "300".toList ∧
      recordTTL (GRecord.cname ("x".toList) ("t".toList) (oneSecond * 60)) = oneSecond * 60 :=
  ⟨ttl_floor_encode_only.1 (60 * oneSecond) (by decide),
    (ttl_floor_encode_only.2.1 300 (by omega)).trans (by decide),
    ttl_floor_encode_only.2.2 (fun _ => Except.error [])
      ⟨"x".toList, "CNAME".toList, "t".toList, 60, [], 0⟩
      (GRecord.cname ("x".toList) ("t".toList) (oneSecond * 60)) (by rfl)⟩

/-- C7 counterexample: a wire record of type `NAPTR` (a type with no
dedicated generic variant) does not decode to the catch-all record — it
fails with the unsupported-type error. -/
theorem naptr_decode_fails :
    NfsnRecord.record (fun _ => Except.error [])
        ⟨"x".toList, "NAPTR".toList, "d".toList, 300, [], 0⟩ =
      Except.error ("Unsupported record type NAPTR".toList) := by
  rfl

/-- C7 amended: only `PTR` among the variant-less types decodes to the
catch-all record (preserving its type tag, name, data and TTL); every
type outside the supported set fails with the unsupported-type error. -/
theorem decode_ptr_catch_all_others_fail :
    (∀ (pa : Str → Except Str Addr) (w : NfsnRecord), w.typ = "PTR".toList →
      NfsnRecord.record pa w =
        Except.ok (GRecord.rr ("PTR".toList) (nameForLibdns w.name) w.data (oneSecond * w.ttl))) ∧
    (∀ (pa : Str → Except Str Addr) (w : NfsnRecord),
      w.typ ∉ ["A".toList, "AAAA".toList, "CNAME".toList, "NS".toList, "PTR".toList,
        "MX".toList, "TXT".toList, "SRV".toList] →
      NfsnRecord.record pa w = Except.error ("Unsupported record type ".toList ++ w.typ)) := by
  constructor
  · intro pa w h
    rw [NfsnRecord.record, h]
    simp
  · intro pa w h
    simp only [List.mem_cons, List.not_mem_nil, or_false, not_or] at h
    obtain ⟨h1, h2, h3, h4, h5, h6, h7, h8⟩ := h
    rw [NfsnRecord.record, if_neg (not_or.mpr ⟨h1, h2⟩), if_neg h3, if_neg h4,
      if_neg h5, if_neg h6, if_neg h7, if_neg h8]

/-- Witness for `decode_ptr_catch_all_others_fail` at concrete records. -/
theorem decode_ptr_catch_all_others_fail_witness :
    NfsnRecord.record (fun _ => Except.error [])
        ⟨"p".toList, "PTR".toList, "t.com".toList, 300, [], 0⟩ =
      Except.ok (GRecord.rr ("PTR".toList) ("p".toList) ("t.com".toList) (oneSecond * 300)) ∧
    NfsnRecord.record (fun _ => Except.error [])
        ⟨"u".toList, "URI".toList, "d".toList, 300, [], 0⟩ =
      Except.error ("Unsupported record type URI".toList) :=
  ⟨decode_ptr_catch_all_others_fail.1 (fun _ => Except.error [])
      ⟨"p".toList, "PTR".toList, "t.com".toList, 300, [], 0⟩ (by decide),
    decode_ptr_catch_all_others_fail.2 (fun _ => Except.error [])
      ⟨"u".toList, "URI".toList, "d".toList, 300, [], 0⟩ (by decide)⟩

/-- C8: listing is all-or-nothing — on the first wire record that fails
to decode, the whole listing returns that error and no records at all,
and when every wire record decodes the full list is returned in order. -/
theorem getRecords_all_or_nothing (pa : Str → Except Str Addr)
    (ns : List NfsnRecord) :
    GetRecords pa (Except.ok ns) =
      match firstDecodeErr pa ns with
      | some e => Except.error e
      | none =>
        Except.ok (ns.map (fun n =>
          (NfsnRecord.record pa n).toOption.getD (GRecord.rr [] [] [] 0))) := by
  rw [GetRecords]
  induction ns with
  | nil => simp [decodeAllLoop, firstDecodeErr]
  | cons n rest ih =>
    cases hd : NfsnRecord.record pa n with
    | error e =>
      simp [decodeAllLoop, firstDecodeErr, hd]
    | ok r =>
      cases hfe : firstDecodeErr pa rest with
      | none =>
        rw [hfe] at ih
        dsimp only at ih
        simp [decodeAllLoop, firstDecodeErr, hd, hfe, ih, Except.toOption]
      | some e =>
        rw [hfe] at ih
        dsimp only at ih
        simp [decodeAllLoop, firstDecodeErr, hd, hfe, ih]

/-- C9: on decode of MX and SRV wire records the integer aux field is
narrowed by truncation modulo `2 ^ 16` — decode succeeds whatever the aux
value (given an otherwise well-formed record) and the MX preference or
SRV priority equals `aux mod 2 ^ 16`, never an error. -/
theorem aux_truncated_mod_65536 :
    (∀ (pa : Str → Except Str Addr) (name target scope : Str) (ttl aux : Int),
      NfsnRecord.record pa ⟨name, "MX".toList, target, ttl, scope, aux⟩ =
        Except.ok (GRecord.mx (nameForLibdns name) target ((Int.emod aux 65536).toNat)
          (oneSecond * ttl))) ∧
    (∀ (pa : Str → Except Str Addr) (name data scope : Str) (d0 d1 d2 : Str)
      (wt pt : Nat) (ttl aux : Int),
      2 ≤ (goSplitN '.' 3 name).length →
      goFields data = [d0, d1, d2] →
      parseUint16 d0 = Except.ok wt →
      parseUint16 d1 = Except.ok pt →
      NfsnRecord.record pa ⟨name, "SRV".toList, data, ttl, scope, aux⟩ =
        Except.ok (GRecord.srv (trimUnd ((goSplitN '.' 3 name).getD 0 []))
          (trimUnd ((goSplitN '.' 3 name).getD 1 []))
          (if (goSplitN '.' 3 name).length = 3 ∧ (goSplitN '.' 3 name).getD 2 [] ≠ [] then
            (goSplitN '.' 3 name).getD 2 []
          else "@".toList)
          ((Int.emod aux 65536).toNat) wt pt d2 (oneSecond * ttl))) := by
  constructor
  · intro pa name target scope ttl aux
    simp [NfsnRecord.record, toUint16]
  · intro pa name data scope d0 d1 d2 wt pt ttl aux h2 hd hw hp
    have hnl : ¬ ((goSplitN '.' 3 name).length < 2) := by omega
    simp [NfsnRecord.record, hnl, hd, hw, hp, toUint16]

/-- Witness for `aux_truncated_mod_65536`: an MX wire record with aux `-1`
decodes to preference `65535`, and an SRV wire record with aux `70000`
decodes to priority `4464 = 70000 mod 65536`. -/
theorem aux_truncated_mod_65536_witness :
    NfsnRecord.record (fun _ => Except.error [])
        ⟨"m".toList, "MX".toList, "t.com".toList, 300, [], -1⟩ =
      Except.ok (GRecord.mx ("m".toList) ("t.com".toList) 65535 (oneSecond * 300)) ∧
    NfsnRecord.record (fun _ => Except.error [])
        ⟨"_j._t.n".toList, "SRV".toList, "2 3 x".toList, 300, [], 70000⟩ =
      Except.ok (GRecord.srv ("j".toList) ("t".toList) ("n".toList) 4464 2 3
        ("x".toList) (oneSecond * 300)) :=
  ⟨(aux_truncated_mod_65536.1 (fun _ => Except.error [])
      ("m".toList) ("t.com".toList) [] 300 (-1)).trans (by rfl),
   (aux_truncated_mod_65536.2 (fun _ => Except.error [])
      ("_j._t.n".toList) ("2 3 x".toList) [] ("2".toList) ("3".toList) ("x".toList)
      2 3 300 70000 (by decide) (by rfl) (by rfl) (by rfl)).trans (by rfl)⟩

/-- C10: SRV decode does not require the leading underscores of the
wire-name format — it strips at most one leading underscore from each of
the first two dot-delimited fields, so the underscored and plain forms of
the same name (with or without a trailing record name) decode
identically, and the underscored canonical form yields exactly service
`s` and transport `t`. -/
theorem srv_decode_underscores_optional :
    (∀ (pa : Str → Except Str Addr) (s t data scope : Str) (ttl aux : Int),
      '.' ∉ s → '.' ∉ t → (∀ u : Str, s ≠ '_' :: u) → (∀ u : Str, t ≠ '_' :: u) →
      NfsnRecord.record pa
          ⟨('_' :: s) ++ ('.' :: ('_' :: t)), "SRV".toList, data, ttl, scope, aux⟩ =
        NfsnRecord.record pa ⟨s ++ ('.' :: t), "SRV".toList, data, ttl, scope, aux⟩) ∧
    (∀ (pa : Str → Except Str Addr) (s t nm data scope : Str) (ttl aux : Int),
      '.' ∉ s → '.' ∉ t → (∀ u : Str, s ≠ '_' :: u) → (∀ u : Str, t ≠ '_' :: u) →
      NfsnRecord.record pa
          ⟨('_' :: s) ++ ('.' :: (('_' :: t) ++ ('.' :: nm))), "SRV".toList, data, ttl, scope, aux⟩ =
        NfsnRecord.record pa
          ⟨s ++ ('.' :: (t ++ ('.' :: nm))), "SRV".toList, data, ttl, scope, aux⟩) ∧
    (∀ (pa : Str → Except Str Addr) (s t data scope : Str) (d0 d1 d2 : Str)
      (wt pt : Nat) (ttl aux : Int),
      '.' ∉ s → '.' ∉ t →
      goFields data = [d0, d1, d2] →
      parseUint16 d0 = Except.ok wt →
      parseUint16 d1 = Except.ok pt →
      NfsnRecord.record pa
          ⟨('_' :: s) ++ ('.' :: ('_' :: t)), "SRV".toList, data, ttl, scope, aux⟩ =
        Except.ok (GRecord.srv s t ("@".toList) (toUint16 aux) wt pt d2 (oneSecond * ttl))) := by
  refine ⟨?_, ?_, ?_⟩
  · intro pa s t data scope ttl aux hs ht hsu htu
    have h1 : '.' ∉ ('_' :: s) := by
      intro hm
      rcases List.mem_cons.mp hm with h | h
      · exact absurd h (by decide)
      · exact hs h
    have h2 : '.' ∉ ('_' :: t) := by
      intro hm
      rcases List.mem_cons.mp hm with h | h
      · exact absurd h (by decide)
      · exact ht h
    have eL := goSplitN_two ('_' :: s) ('_' :: t) h1 h2
    have eR := goSplitN_two s t hs ht
    simp only [List.cons_append] at eL
    simp [NfsnRecord.record, eL, eR, trimUnd_und, trimUnd_no_und s hsu,
      trimUnd_no_und t htu]
  · intro pa s t nm data scope ttl aux hs ht hsu htu
    have h1 : '.' ∉ ('_' :: s) := by
      intro hm
      rcases List.mem_cons.mp hm with h | h
      · exact absurd h (by decide)
      · exact hs h
    have h2 : '.' ∉ ('_' :: t) := by
      intro hm
      rcases List.mem_cons.mp hm with h | h
      · exact absurd h (by decide)
      · exact ht h
    have eL := goSplitN_three ('_' :: s) ('_' :: t) nm h1 h2
    have eR := goSplitN_three s t nm hs ht
    simp only [List.cons_append] at eL
    simp [NfsnRecord.record, eL, eR, trimUnd_und, trimUnd_no_und s hsu,
      trimUnd_no_und t htu]
  · intro pa s t data scope d0 d1 d2 wt pt ttl aux hs ht hd hw hp
    have h1 : '.' ∉ ('_' :: s) := by
      intro hm
      rcases List.mem_cons.mp hm with h | h
      · exact absurd h (by decide)
      · exact hs h
    have h2 : '.' ∉ ('_' :: t) := by
      intro hm
      rcases List.mem_cons.mp hm with h | h
      · exact absurd h (by decide)
      · exact ht h
    have eL := goSplitN_two ('_' :: s) ('_' :: t) h1 h2
    simp only [List.cons_append] at eL
    simp [NfsnRecord.record, eL, hd, hw, hp, trimUnd_und]

/-- Witness for `srv_decode_underscores_optional`: `_svc._tcp` and
`svc.tcp` (and their `.example` forms) decode identically, and the
canonical form decodes to service `svc`, transport `tcp`. -/
theorem srv_decode_underscores_optional_witness :
    NfsnRecord.record (fun _ => Except.error [])
        ⟨"_svc._tcp".toList, "SRV".toList, "2 3 x".toList, 300, [], 1⟩ =
      NfsnRecord.record (fun _ => Except.error [])
        ⟨"svc.tcp".toList, "SRV".toList, "2 3 x".toList, 300, [], 1⟩ ∧
    NfsnRecord.record (fun _ => Except.error [])
        ⟨"_svc._tcp.example".toList, "SRV".toList, "2 3 x".toList, 300, [], 1⟩ =
      NfsnRecord.record (fun _ => Except.error [])
        ⟨"svc.tcp.example".toList, "SRV".toList, "2 3 x".toList, 300, [], 1⟩ ∧
    NfsnRecord.record (fun _ => Except.error [])
        ⟨"_svc._tcp".toList, "SRV".toList, "2 3 x".toList, 300, [], 1⟩ =
      Except.ok (GRecord.srv ("svc".toList) ("tcp".toList) ("@".toList) 1 2 3
        ("x".toList) (oneSecond * 300)) :=
  ⟨srv_decode_underscores_optional.1 (fun _ => Except.error [])
      ("svc".toList) ("tcp".toList) ("2 3 x".toList) [] 300 1
      (by decide) (by decide) (by intro u h; simp at h) (by intro u h; simp at h),
   srv_decode_underscores_optional.2.1 (fun _ => Except.error [])
      ("svc".toList) ("tcp".toList) ("example".toList) ("2 3 x".toList) [] 300 1
      (by decide) (by decide) (by intro u h; simp at h) (by intro u h; simp at h),
   (srv_decode_underscores_optional.2.2 (fun _ => Except.error [])
      ("svc".toList) ("tcp".toList) ("2 3 x".toList) [] ("2".toList) ("3".toList)
      ("x".toList) 2 3 300 1 (by decide) (by decide) (by rfl) (by rfl) (by rfl)).trans
      (by rfl)⟩

/-! ## Lemmas for the SRV round trip -/

/-- Go `uint16` of a non-negative in-range int is the identity. -/
theorem toUint16_coe (a : Nat) (h : a < 65536) : toUint16 ((a : Nat) : Int) = a := by
  show ((a : Int) % 65536).toNat = a
  omega

/-- Encoding a whole-second TTL at or above the floor renders it as-is. -/
theorem ttlForNfsn_whole (k : Nat) (h : 180 ≤ k) :
    ttlForNfsn (oneSecond * (k : Int)) = natToDec k := by
  have hn : ¬ (oneSecond * (k : Int) < minimumTTL) := by
    rw [oneSecond, minimumTTL, oneSecond]
    omega
  rw [ttlForNfsn, if_neg hn, oneSecond]
  have h1 : ((1000000000 : Int) * (k : Int)).toNat = k * 1000000000 := by
    rw [show ((1000000000 : Int) * (k : Int)) = ((k * 1000000000 : Nat) : Int) by push_cast; ring]
    exact Int.toNat_natCast _
  rw [h1, Nat.mul_div_cancel _ (by omega)]

/-- C3 counterexample: the round trip fails as stated — for the SRV example of the spec with a 60-second TTL, `decode (encode g)` yields a record with
a 180-second TTL, not `g` (the encoder floors the TTL, the decoder does
not undo it), so `decode ∘ encode` is not the identity on all SRV generic
records with 16-bit weight and port. -/
theorem srv_roundtrip_counterexample :
    toNfsnRecordParameters (GRecord.srv ("xmpp".toList) ("tcp".toList) ("@".toList)
        10 20 30 ("test.com".toList) (60 * oneSecond)) =
      Except.ok ⟨"SRV".toList, "_xmpp._tcp".toList, "20 30 test.com".toList,
        "180".toList, some ("10".toList)⟩ ∧
    NfsnRecord.record (fun _ => Except.error [])
        (wireOfParams ⟨"SRV".toList, "_xmpp._tcp".toList, "20 30 test.com".toList,
          "180".toList, some ("10".toList)⟩) =
      Except.ok (GRecord.srv ("xmpp".toList) ("tcp".toList) ("@".toList)
        10 20 30 ("test.com".toList) (180 * oneSecond)) ∧
    GRecord.srv ("xmpp".toList) ("tcp".toList) ("@".toList) 10 20 30 ("test.com".toList)
        (180 * oneSecond) ≠
      GRecord.srv ("xmpp".toList) ("tcp".toList) ("@".toList) 10 20 30 ("test.com".toList)
        (60 * oneSecond) :=
  ⟨by rfl, by rfl, by decide⟩

/-- C3 amended: SRV encode and decode are mutually inverse on canonical
records.  Wire side: the first two dot-delimited name fields are
underscore-prefixed and dot-free, the optional third field is non-empty
and not `@`, the data is the single-space join of two canonical decimals
below `2 ^ 16` and a non-empty whitespace-free target, the aux lies in
`[0, 65536)`, and the ttl is a whole number of seconds at least 180; then
`encode (decode w) = w`.  Generic side: service and transport are
dot-free, the name is non-empty, the target is non-empty and
whitespace-free, priority, weight and port are below `2 ^ 16`, and the
TTL is a whole number of seconds at least 180; then
`decode (encode g) = g`. -/
theorem srv_mirror_transforms :
    (∀ (pa : Str → Except Str Addr) (s1 t1 tgt scope : Str) (wv pv auxv kTtl : Nat)
      (g : GRecord),
      '.' ∉ s1 → '.' ∉ t1 →
      tgt ≠ [] → (∀ c ∈ tgt, isWhite c = false) →
      wv < 65536 → pv < 65536 → auxv < 65536 → 180 ≤ kTtl →
      NfsnRecord.record pa ⟨('_' :: s1) ++ ('.' :: ('_' :: t1)), "SRV".toList,
          natToDec wv ++ (' ' :: (natToDec pv ++ (' ' :: tgt))),
          (kTtl : Int), scope, (auxv : Int)⟩ = Except.ok g →
      toNfsnRecordParameters g =
        Except.ok ⟨"SRV".toList, ('_' :: s1) ++ ('.' :: ('_' :: t1)),
          natToDec wv ++ (' ' :: (natToDec pv ++ (' ' :: tgt))),
          natToDec kTtl, some (natToDec auxv)⟩) ∧
    (∀ (pa : Str → Except Str Addr) (s1 t1 n3 tgt scope : Str) (wv pv auxv kTtl : Nat)
      (g : GRecord),
      '.' ∉ s1 → '.' ∉ t1 → n3 ≠ [] → n3 ≠ "@".toList →
      tgt ≠ [] → (∀ c ∈ tgt, isWhite c = false) →
      wv < 65536 → pv < 65536 → auxv < 65536 → 180 ≤ kTtl →
      NfsnRecord.record pa ⟨('_' :: s1) ++ ('.' :: (('_' :: t1) ++ ('.' :: n3))), "SRV".toList,
          natToDec wv ++ (' ' :: (natToDec pv ++ (' ' :: tgt))),
          (kTtl : Int), scope, (auxv : Int)⟩ = Except.ok g →
      toNfsnRecordParameters g =
        Except.ok ⟨"SRV".toList, ('_' :: s1) ++ ('.' :: (('_' :: t1) ++ ('.' :: n3))),
          natToDec wv ++ (' ' :: (natToDec pv ++ (' ' :: tgt))),
          natToDec kTtl, some (natToDec auxv)⟩) ∧
    (∀ (pa : Str → Except Str Addr) (s1 t1 nm tgt : Str) (pr wv pv kTtl : Nat)
      (p : RecParams),
      '.' ∉ s1 → '.' ∉ t1 → nm ≠ [] →
      tgt ≠ [] → (∀ c ∈ tgt, isWhite c = false) →
      pr < 65536 → wv < 65536 → pv < 65536 → 180 ≤ kTtl →
      toNfsnRecordParameters
          (GRecord.srv s1 t1 nm pr wv pv tgt (oneSecond * (kTtl : Int))) = Except.ok p →
      NfsnRecord.record pa (wireOfParams p) =
        Except.ok (GRecord.srv s1 t1 nm pr wv pv tgt (oneSecond * (kTtl : Int)))) := by
  have hU : ∀ (u : Str), '.' ∉ u → '.' ∉ ('_' :: u) := by
    intro u hu hm
    rcases List.mem_cons.mp hm with h | h
    · exact absurd h (by decide)
    · exact hu h
  refine ⟨?_, ?_, ?_⟩
  · intro pa s1 t1 tgt scope wv pv auxv kTtl g hs ht htn htw hwv hpv haux hk hdec
    have hsplit := goSplitN_two ('_' :: s1) ('_' :: t1) (hU s1 hs) (hU t1 ht)
    simp only [List.cons_append] at hsplit
    have hfields := goFields_three (natToDec wv) (natToDec pv) tgt
      (natToDec_ne_nil wv) (natToDec_ne_nil pv) htn
      (natToDec_not_white wv) (natToDec_not_white pv) htw
    have hdec2 : NfsnRecord.record pa ⟨('_' :: s1) ++ ('.' :: ('_' :: t1)), "SRV".toList,
        natToDec wv ++ (' ' :: (natToDec pv ++ (' ' :: tgt))),
        (kTtl : Int), scope, (auxv : Int)⟩ =
        Except.ok (GRecord.srv s1 t1 ("@".toList) auxv wv pv tgt (oneSecond * (kTtl : Int))) := by
      simp [NfsnRecord.record, hsplit, hfields, parseUint16_natToDec wv hwv,
        parseUint16_natToDec pv hpv, trimUnd_und, toUint16_coe auxv haux]
    rw [hdec2] at hdec
    cases hdec
    simp [toNfsnRecordParameters, nameForNfsn, ttlForNfsn_whole kTtl hk]
  · intro pa s1 t1 n3 tgt scope wv pv auxv kTtl g hs ht hn3 hn3at htn htw hwv hpv haux hk hdec
    have hsplit := goSplitN_three ('_' :: s1) ('_' :: t1) n3 (hU s1 hs) (hU t1 ht)
    simp only [List.cons_append] at hsplit
    have hfields := goFields_three (natToDec wv) (natToDec pv) tgt
      (natToDec_ne_nil wv) (natToDec_ne_nil pv) htn
      (natToDec_not_white wv) (natToDec_not_white pv) htw
    have hdec2 : NfsnRecord.record pa ⟨('_' :: s1) ++ ('.' :: (('_' :: t1) ++ ('.' :: n3))),
        "SRV".toList, natToDec wv ++ (' ' :: (natToDec pv ++ (' ' :: tgt))),
        (kTtl : Int), scope, (auxv : Int)⟩ =
        Except.ok (GRecord.srv s1 t1 n3 auxv wv pv tgt (oneSecond * (kTtl : Int))) := by
      simp [NfsnRecord.record, hsplit, hfields, parseUint16_natToDec wv hwv,
        parseUint16_natToDec pv hpv, trimUnd_und, toUint16_coe auxv haux, hn3]
    rw [hdec2] at hdec
    cases hdec
    have hn3a : ¬ n3 = ['@'] := by simpa using hn3at
    simp [toNfsnRecordParameters, nameForNfsn, hn3a, hn3, ttlForNfsn_whole kTtl hk]
  · intro pa s1 t1 nm tgt pr wv pv kTtl p hs ht hnm htn htw hpr hwv hpv hk henc
    have hfields := goFields_three (natToDec wv) (natToDec pv) tgt
      (natToDec_ne_nil wv) (natToDec_ne_nil pv) htn
      (natToDec_not_white wv) (natToDec_not_white pv) htw
    by_cases hat : nm = "@".toList
    · have henc2 : toNfsnRecordParameters
          (GRecord.srv s1 t1 nm pr wv pv tgt (oneSecond * (kTtl : Int))) =
          Except.ok ⟨"SRV".toList, ('_' :: s1) ++ ('.' :: ('_' :: t1)),
            natToDec wv ++ (' ' :: (natToDec pv ++ (' ' :: tgt))),
            natToDec kTtl, some (natToDec pr)⟩ := by
        simp [toNfsnRecordParameters, nameForNfsn, hat, ttlForNfsn_whole kTtl hk]
      rw [henc2] at henc
      cases henc
      have hsplit := goSplitN_two ('_' :: s1) ('_' :: t1) (hU s1 hs) (hU t1 ht)
      simp only [List.cons_append] at hsplit
      rw [wireOfParams]
      simp only [parseDigitsAux_natToDec, Option.getD_some]
      simp [NfsnRecord.record, hsplit, hfields, parseUint16_natToDec wv hwv,
        parseUint16_natToDec pv hpv, trimUnd_und, toUint16_coe pr hpr, hat]
    · have henc2 : toNfsnRecordParameters
          (GRecord.srv s1 t1 nm pr wv pv tgt (oneSecond * (kTtl : Int))) =
          Except.ok ⟨"SRV".toList, ('_' :: s1) ++ ('.' :: (('_' :: t1) ++ ('.' :: nm))),
            natToDec wv ++ (' ' :: (natToDec pv ++ (' ' :: tgt))),
            natToDec kTtl, some (natToDec pr)⟩ := by
        have hata : ¬ nm = ['@'] := by simpa using hat
        simp [toNfsnRecordParameters, nameForNfsn, hata, hnm, ttlForNfsn_whole kTtl hk]
      rw [henc2] at henc
      cases henc
      have hsplit := goSplitN_three ('_' :: s1) ('_' :: t1) nm (hU s1 hs) (hU t1 ht)
      simp only [List.cons_append] at hsplit
      rw [wireOfParams]
      simp only [parseDigitsAux_natToDec, Option.getD_some]
      simp [NfsnRecord.record, hsplit, hfields, parseUint16_natToDec wv hwv,
        parseUint16_natToDec pv hpv, trimUnd_und, toUint16_coe pr hpr, hnm]

/-- Witness for `srv_mirror_transforms` at concrete canonical records in
all three shapes. -/
theorem srv_mirror_transforms_witness :
    toNfsnRecordParameters (GRecord.srv ("xmpp".toList) ("tcp".toList) ("@".toList)
        10 20 30 ("test.com".toList) (oneSecond * 300)) =
      Except.ok ⟨"SRV".toList, "_xmpp._tcp".toList, "20 30 test.com".toList,
        "300".toList, some ("10".toList)⟩ ∧
    toNfsnRecordParameters (GRecord.srv ("xmpp".toList) ("tcp".toList) ("ex.org".toList)
        10 20 30 ("test.com".toList) (oneSecond * 300)) =
      Except.ok ⟨"SRV".toList, "_xmpp._tcp.ex.org".toList, "20 30 test.com".toList,
        "300".toList, some ("10".toList)⟩ ∧
    NfsnRecord.record (fun _ => Except.error [])
        (wireOfParams ⟨"SRV".toList, "_xmpp._tcp.ex.org".toList, "20 30 test.com".toList,
          "300".toList, some ("10".toList)⟩) =
      Except.ok (GRecord.srv ("xmpp".toList) ("tcp".toList) ("ex.org".toList)
        10 20 30 ("test.com".toList) (oneSecond * 300)) := by
  refine ⟨?_, ?_, ?_⟩
  · have h := srv_mirror_transforms.1 (fun _ => Except.error [])
      ("xmpp".toList) ("tcp".toList) ("test.com".toList) [] 20 30 10 300
      (GRecord.srv ("xmpp".toList) ("tcp".toList) ("@".toList) 10 20 30
        ("test.com".toList) (oneSecond * 300))
      (by decide) (by decide) (by decide) (by decide) (by decide) (by decide)
      (by decide) (by decide) (by rfl)
    exact h.trans (by rfl)
  · have h := srv_mirror_transforms.2.1 (fun _ => Except.error [])
      ("xmpp".toList) ("tcp".toList) ("ex.org".toList) ("test.com".toList) []
      20 30 10 300
      (GRecord.srv ("xmpp".toList) ("tcp".toList) ("ex.org".toList) 10 20 30
        ("test.com".toList) (oneSecond * 300))
      (by decide) (by decide) (by decide) (by decide) (by decide) (by decide)
      (by decide) (by decide) (by decide) (by decide) (by rfl)
    exact h.trans (by rfl)
  · have h := srv_mirror_transforms.2.2 (fun _ => Except.error [])
      ("xmpp".toList) ("tcp".toList) ("ex.org".toList) ("test.com".toList)
      10 20 30 300
      ⟨"SRV".toList, "_xmpp._tcp.ex.org".toList, "20 30 test.com".toList,
        "300".toList, some ("10".toList)⟩
      (by decide) (by decide) (by decide) (by decide) (by decide) (by decide)
      (by decide) (by decide) (by decide) (by rfl)
    exact h.trans (by rfl)

end Nfsn
